import Mathlib

/-!
Shallow embedding of the Telegram media deep-link bot (`src/bot.py`): the deep-link
registry (media table insert/lookup), the payload generator, the per-user
pending-upload session store and its callback dispatch, the parallel download
range split and merge, and the planning layers of the preview, collage and
watermark transform stages.
-/

namespace DeepLinkBot

/-- A row of the media table:
`media(payload TEXT PRIMARY KEY, file_id TEXT, media_type TEXT, content_protection INTEGER DEFAULT 1)`
(`init_database`, bot.py 96-103).  The `content_protection` column is nullable. -/
structure MediaRow where
  payload : List Char
  file_id : String
  media_type : String
  content_protection : Option Int
  deriving DecidableEq, Repr

/-- Python `protection_int = 1 if settings['content_protection'] else 0`
(bot.py 1110 and 1243). -/
def protectionInt (p : Bool) : Int := if p then 1 else 0

/-- Python `protect = bool(content_protection) if content_protection is not None else True`
in `handle_start` (bot.py 553): a NULL column is treated as protected, an integer is
truthy exactly when nonzero. -/
def protectFlag : Option Int → Bool
  | none => true
  | some v => v != 0

/-- The SQL `INSERT INTO media (payload, file_id, media_type, content_protection)`
(bot.py 1111-1114 and 1244-1247).  `payload` is the primary key, so inserting a row whose
payload is already present raises an integrity error, modelled as `none`. -/
def insertMedia (db : List MediaRow) (r : MediaRow) : Option (List MediaRow) :=
  if db.any (fun q => q.payload == r.payload) then none else some (db ++ [r])

/-- The redeem path of `handle_start` (bot.py 545-561):
`SELECT file_id, media_type, content_protection FROM media WHERE payload=?` followed by
the protection decoding; `none` models the "Invalid or expired link" reply. -/
def resolveMedia (db : List MediaRow) (payload : List Char) :
    Option (String × String × Bool) :=
  match db.find? (fun r => r.payload == payload) with
  | none => none
  | some r => some (r.file_id, r.media_type, protectFlag r.content_protection)

/-- The canonical 8-4-4-4-12 text form of a UUID whose 32 hex digits are `h`, as produced
by Python `str(uuid.uuid4())` (bot.py 1107 and 1240). -/
def uuidStr (h : List Char) : List Char :=
  h.take 8 ++ ('-' :: ((h.drop 8).take 4 ++ ('-' :: ((h.drop 12).take 4 ++
    ('-' :: ((h.drop 16).take 4 ++ ('-' :: h.drop 20)))))))

/-- Python `payload = str(uuid.uuid4())[:12].replace('-', '')` (bot.py 1107 and 1240):
the first 12 characters of the canonical UUID string with every dash removed. -/
def genPayload (h : List Char) : List Char :=
  ((uuidStr h).take 12).filter (fun c => c != '-')

/-- Deep-link issuance in `process_media` (bot.py 1240-1248): generate the payload from the
drawn UUID digits `h` and insert the media row.  There is no regeneration loop, so a
payload collision surfaces the primary-key integrity error (`none`). -/
def issueToken (h : List Char) (fid mt : String) (p : Bool) (db : List MediaRow) :
    Option (List MediaRow) :=
  insertMedia db ⟨genPayload h, fid, mt, some (protectionInt p)⟩

/-- The per-owner pending-upload record created by `handle_media` (bot.py 722-738). -/
structure PendingUpload where
  file_id : String
  media_type : String
  generate_preview : Bool
  generate_collage : Bool
  preview_length : Option Nat
  collage_frames : Option Nat
  watermark_enabled : Bool
  watermark_text : String
  watermark_position : String
  watermark_opacity : Rat
  content_protection : Bool
  waiting_for : Option String
  deriving DecidableEq, Repr

/-- The callback actions dispatched in `handle_callback` (bot.py 825-1058): the
`call.data` strings that mutate or consume the session, as a closed enumeration.
`setPreview none` is `set_preview_no`, `setPreview (some n)` is `set_preview_{n}`,
and likewise for the collage buttons; `processNow` is `process_now`. -/
inductive CbAction where
  | setPreview (len : Option Nat)
  | setCollage (frames : Option Nat)
  | watermarkOn
  | watermarkOff
  | setPosition (pos : String)
  | setOpacity (o : Rat)
  | toggleProtection
  | backToMenu
  | processNow
  deriving DecidableEq, Repr

/-- Observable outcome of one callback event: the "Upload expired. Please send media
again." rejection (bot.py 817-819), normal handling, or an uncaught `KeyError` raised by
`del PENDING_UPLOADS[user_id]` (bot.py 1058) when the entry is already gone. -/
inductive CbOutcome where
  | expired
  | handled
  | keyError
  deriving DecidableEq, Repr

/-- The `PENDING_UPLOADS` dict (bot.py 67), keyed by user id. -/
abbrev PendingMap := List (Nat × PendingUpload)

/-- Dictionary lookup `PENDING_UPLOADS.get(user_id)` / `user_id in PENDING_UPLOADS`. -/
def findUpload (uid : Nat) : PendingMap → Option PendingUpload
  | [] => none
  | e :: rest => if e.1 = uid then some e.2 else findUpload uid rest

/-- Dictionary deletion `del PENDING_UPLOADS[user_id]` (restricted to the removal
effect; the `KeyError` on a missing key is modelled at the call sites). -/
def removeUpload (uid : Nat) (m : PendingMap) : PendingMap :=
  m.filter (fun e => e.1 != uid)

/-- In-place mutation of the owner's settings record (`settings['...'] = ...`). -/
def updateUpload (uid : Nat) (f : PendingUpload → PendingUpload) (m : PendingMap) :
    PendingMap :=
  m.map (fun e => if e.1 = uid then (e.1, f e.2) else e)

/-- Python `needs_processing` (bot.py 1095-1099). -/
def needsProcessing (s : PendingUpload) : Bool :=
  s.generate_preview || s.generate_collage || s.watermark_enabled

/-- Python `process_media(chat_id, user_id)` (bot.py 1088-1264), restricted to its effect on the
pending-upload map and the media table; `h` is the UUID draw for the payload.  Reading
`PENDING_UPLOADS[user_id]` for a missing owner raises `KeyError` (`none`); the instant
path (nothing to process) inserts the row and itself deletes the session (bot.py 1133);
the processing path runs the download/transform stages (whose failures are downgraded to
warnings), inserts the row and leaves the session in place; a payload collision raises
the primary-key integrity error (`none`). -/
def processMedia (h : List Char) (uid : Nat) (pending : PendingMap)
    (db : List MediaRow) : Option (PendingMap × List MediaRow) :=
  match findUpload uid pending with
  | none => none
  | some s =>
    match insertMedia db ⟨genPayload h, s.file_id, s.media_type,
        some (protectionInt s.content_protection)⟩ with
    | none => none
    | some db' =>
      if needsProcessing s then some (pending, db')
      else some (removeUpload uid pending, db')

/-- Session-field mutation performed by each option branch of `handle_callback`
(bot.py 843-1046). -/
def applyAction : CbAction → PendingUpload → PendingUpload
  | .setPreview none, s => { s with preview_length := none, generate_preview := false }
  | .setPreview (some n), s => { s with preview_length := some n, generate_preview := true }
  | .setCollage none, s => { s with collage_frames := none, generate_collage := false }
  | .setCollage (some n), s => { s with collage_frames := some n, generate_collage := true }
  | .watermarkOn, s => { s with watermark_enabled := true }
  | .watermarkOff, s => { s with watermark_enabled := false }
  | .setPosition p, s => { s with watermark_position := p }
  | .setOpacity o, s => { s with watermark_opacity := o }
  | .toggleProtection, s => { s with content_protection := !s.content_protection }
  | .backToMenu, s => s
  | .processNow, s => s

/-- Python `handle_callback` (bot.py 809-1058) restricted to session/registry state: the guard at
line 817 answers "Upload expired" and returns unchanged when the owner has no pending
upload; option actions mutate the owner's record; `process_now` runs `process_media` and
then executes `del PENDING_UPLOADS[user_id]` (bot.py 1058), which raises `KeyError`
whenever the instant path already deleted the entry; an exception raised inside
`process_media` (missing key or payload collision) propagates before that deletion. -/
def handleCallback (h : List Char) (uid : Nat) (action : CbAction)
    (pending : PendingMap) (db : List MediaRow) :
    PendingMap × List MediaRow × CbOutcome :=
  match findUpload uid pending with
  | none => (pending, db, .expired)
  | some _ =>
    match action with
    | .processNow =>
      match processMedia h uid pending db with
      | none => (pending, db, .keyError)
      | some (p', db') =>
        match findUpload uid p' with
        | some _ => (removeUpload uid p', db', .handled)
        | none => (p', db', .keyError)
    | a => (updateUpload uid (applyAction a) pending, db, .handled)

/-- A pending upload exactly as `handle_media` creates it (bot.py 722-738): every
option disabled, default watermark position and opacity, protection on. -/
def defaultUpload (fid mt : String) : PendingUpload :=
  ⟨fid, mt, false, false, none, none, false, "", "bottom-right", 1/2, true, none⟩

/-- Python `part_size = file_size // num_connections` (bot.py 236). -/
def partSize (fileSize num : Nat) : Nat := fileSize / num

/-- Python `start_byte = i * part_size` (bot.py 260). -/
def startByte (fileSize num i : Nat) : Int :=
  (i : Int) * (partSize fileSize num : Int)

/-- Python `end_byte = start_byte + part_size - 1 if i < num_connections - 1 else
file_size - 1` (bot.py 261). -/
def endByte (fileSize num i : Nat) : Int :=
  if i < num - 1 then startByte fileSize num i + (partSize fileSize num : Int) - 1
  else (fileSize : Int) - 1

/-- The bytes `Range: bytes={start_byte}-{end_byte}` of the source delivered to worker
`i` and written to its `.part{i}` segment file (bot.py 238-249); an empty slice when the
range is empty. -/
def segment (file : List Nat) (fileSize num i : Nat) : List Nat :=
  (file.drop (startByte fileSize num i).toNat).take
    (endByte fileSize num i - startByte fileSize num i + 1).toNat

/-- The merge loop (bot.py 272-277): concatenate the `.part{i}` files in range order. -/
def mergeParts (file : List Nat) (fileSize num : Nat) : List Nat :=
  ((List.range num).map (segment file fileSize num)).flatten

/-- The worker phase of `download_file_parallel` (bot.py 256-268): every submitted worker
runs `download_part`, appending its segment file name to `temp_files` and writing the
file; the returned flag is the conjunction of the per-worker results. All workers run to
completion: the thread pool is sized to the worker count, nothing ever calls a cancel,
and the executor context exit waits for running workers even after the
"Failed to download one or more parts" exception is raised. -/
def workerLoop : List Nat → (Nat → Bool) → List Nat × Bool
  | [], _ => ([], true)
  | i :: rest, ok =>
    let r := workerLoop rest ok
    (i :: r.1, ok i && r.2)

/-- The cleanup loops: on failure, `for temp_file in temp_files: os.remove(temp_file)`
(bot.py 288-293); on success, each part is removed right after being merged
(bot.py 277). -/
def removeFiles (toRemove disk : List Nat) : List Nat :=
  toRemove.foldl (fun d f => d.erase f) disk

/-- Observable result of one `download_file_parallel` invocation: the returned flag,
the destination file contents if this invocation produced it, the indices of `.part`
segment files left on disk, and the workers that ran to completion. -/
structure DownloadRun where
  success : Bool
  destination : Option (List Nat)
  partsOnDisk : List Nat
  executed : List Nat
  deriving DecidableEq, Repr

/-- Python `download_file_parallel` (bot.py 204-294) for a known file size, over the remote
content `file` and the per-worker outcome oracle `ok`: all workers run and create their
segment files; if every worker succeeded the parts are merged into the destination and
deleted, otherwise the exception handler removes every segment file, leaves the
destination untouched and returns `False`. -/
def downloadParallel (file : List Nat) (num : Nat) (ok : Nat → Bool) : DownloadRun :=
  let r := workerLoop (List.range num) ok
  if r.2 then
    { success := true
      destination := some (mergeParts file file.length num)
      partsOnDisk := removeFiles r.1 r.1
      executed := List.range num }
  else
    { success := false
      destination := none
      partsOnDisk := removeFiles r.1 r.1
      executed := List.range num }

/-- Python `int(x)` on a nonnegative-or-negative rational: truncation toward zero. -/
def pyInt (q : Rat) : Int := if 0 ≤ q then ⌊q⌋ else ⌈q⌉

/-- Python `num_clips = int(preview_length / clip_duration)` with `clip_duration = 2`
(bot.py 1294-1295). -/
def previewNumClips (L : Rat) : Nat := (pyInt (L / 2)).toNat

/-- Result of the preview stage planning in `generate_video_preview` (bot.py 1285-1331):
either the source is copied whole (`shutil.copy`, no re-encode), or a list of
`(start, duration)` subclip extractions performed in order and concatenated. -/
inductive PreviewOutput where
  | copyFull
  | clips (segs : List (Rat × Rat))
  deriving DecidableEq, Repr

/-- The preview plan of `generate_video_preview` (bot.py 1288-1331): copy the source when
`D ≤ L`; otherwise draw `num_clips` starts with the supplied random stream
(`random.uniform(0, D - 2)` is `rand i`), sort them ascending, and cut a 2-second clip at
each start, concatenating in that order. -/
def previewPlan (D L : Rat) (rand : Nat → Rat) : PreviewOutput :=
  if D ≤ L then .copyFull
  else
    .clips ((List.insertionSort (fun a b => a ≤ b)
      ((List.range (previewNumClips L)).map rand)).map (fun t => (t, 2)))

/-- Timestamp selection of `generate_video_collage` (bot.py 1383-1398): returns the
possibly-reduced frame count together with the timestamp list; `rand i` models the i-th
`random.random()` draw. -/
def collageTimes (D : Rat) (N : Nat) (rand : Nat → Rat) : Nat × List Rat :=
  if D < 1 then (1, [1/2])
  else if D < (N : Rat) then
    (max 1 (pyInt D).toNat,
      (List.range (max 1 (pyInt D).toNat)).map
        (fun i : Nat => D * ((i : Rat) + 1/2) / ((max 1 (pyInt D).toNat : Nat) : Rat)))
  else if 10 < D then
    (N, List.insertionSort (fun a b => a ≤ b)
      ((List.range N).map (fun i : Nat => 5 + rand i * (D - 10))))
  else
    (N, List.insertionSort (fun a b => a ≤ b)
      ((List.range N).map
        (fun i : Nat => D * (1/10) + rand i * (D - 2 * (D * (1/10))))))

/-- The fixed grid table of `generate_video_collage` (bot.py 1441-1450). -/
def gridFor (n : Nat) : Nat × Nat :=
  if n = 4 then (2, 2)
  else if n = 6 then (3, 2)
  else if n = 9 then (3, 3)
  else if n = 12 then (4, 3)
  else (2, 2)

/-- Outcome of the collage composition gate: a composed grid, or the
"Only extracted {k} frames, skipping collage" warning with no image. -/
inductive CollageOutput where
  | grid (cols rows : Nat)
  | skipped (got : Nat)
  deriving DecidableEq, Repr

/-- The frame-extraction loop and composition gate of `generate_video_collage`
(bot.py 1401-1479): each timestamp is attempted independently and a failed extraction is
skipped, not fatal (`ok i` tells whether extraction `i` succeeded and loaded); the grid
is composed exactly when the number of loaded frames reaches `collage_frames`. -/
def collageCompose (N : Nat) (times : List Rat) (ok : Nat → Bool) : CollageOutput :=
  if N ≤ ((List.range times.length).filter ok).length then
    CollageOutput.grid (gridFor N).1 (gridFor N).2
  else .skipped ((List.range times.length).filter ok).length

/-- The `cv2.addWeighted(src1, alpha, src2, beta, gamma)` blend on a frame modelled as an
ideal real-valued pixel map (bot.py 501). -/
def addWeighted (src1 : Nat → Rat) (alpha : Rat) (src2 : Nat → Rat)
    (beta gamma : Rat) : Nat → Rat :=
  fun p => src1 p * alpha + src2 p * beta + gamma

/-- The per-frame watermark transform of `apply_watermark_to_video` (bot.py 490-501):
`overlay = frame.copy()` with outlined and filled text drawn by the toolchain primitive
`drawText`, then `frame = cv2.addWeighted(overlay, alpha, frame, 1 - alpha, 0)`. -/
def watermarkFrame (drawText : (Nat → Rat) → Nat → Rat) (alpha : Rat)
    (frame : Nat → Rat) : Nat → Rat :=
  addWeighted (drawText frame) alpha frame (1 - alpha) 0

/-! Helper lemmas. -/

theorem find?_append_of_none {p : MediaRow → Bool} {l₁ l₂ : List MediaRow}
    (h : l₁.find? p = none) : (l₁ ++ l₂).find? p = l₂.find? p := by
  induction l₁ with
  | nil => simp
  | cons a t ih =>
    rcases List.find?_eq_none.mp h a (List.mem_cons_self a t) |>.elim with _
    simp only [List.cons_append, List.find?]
    have ha : p a = false := by
      have := List.find?_eq_none.mp h a (List.mem_cons_self a t)
      simpa using this
    rw [ha]
    exact ih (by
      apply List.find?_eq_none.mpr
      intro x hx
      exact List.find?_eq_none.mp h x (List.mem_cons_of_mem a hx))

theorem protectFlag_protectionInt (p : Bool) :
    protectFlag (some (protectionInt p)) = p := by
  cases p <;> rfl

theorem uuidStr_take_twelve (h : List Char) (hlen : h.length = 32) :
    (uuidStr h).take 12 = h.take 8 ++ '-' :: (h.drop 8).take 3 := by
  have hA : (h.take 8).length = 8 := by simp [hlen]
  rw [uuidStr, List.take_append_eq_append_take, hA,
    List.take_of_length_le (le_of_eq_of_le hA (by norm_num))]
  congr 1
  rw [show (12 - 8 : Nat) = 3 + 1 from rfl, List.take_succ_cons]
  congr 1
  rw [List.take_append_of_le_length (by simp [hlen]), List.take_take]
  rfl

theorem genPayload_eq (h : List Char) (hlen : h.length = 32)
    (hhex : ∀ c ∈ h, c ≠ '-') :
    genPayload h = h.take 8 ++ (h.drop 8).take 3 := by
  have hmem : ∀ l : List Char, l ⊆ h → l.filter (fun c => c != '-') = l := by
    intro l hl
    apply List.filter_eq_self.mpr
    intro a ha
    simpa using hhex a (hl ha)
  rw [genPayload, uuidStr_take_twelve h hlen, List.filter_append]
  rw [hmem (h.take 8) (List.take_subset 8 h)]
  congr 1
  rw [List.filter_cons]
  simp only [bne_self_eq_false, Bool.false_eq_true, if_false]
  exact hmem ((h.drop 8).take 3)
    (fun a ha => List.drop_subset 8 h (List.take_subset 3 (h.drop 8) ha))

theorem genPayload_length (h : List Char) (hlen : h.length = 32)
    (hhex : ∀ c ∈ h, c ≠ '-') : (genPayload h).length = 11 := by
  rw [genPayload_eq h hlen hhex]
  simp [hlen]

/-! Claim theorems. -/

/-- C1: inserting `(token, m, k, p)` into the registry (protection encoded as the stored
integer) and then resolving that token returns exactly `(m, k, p)`; and resolving any
string that was never issued returns not-found (`none`, the "Invalid or expired link"
reply). -/
theorem registry_roundtrip_and_notfound (db : List MediaRow) (t : List Char)
    (m k : String) (p : Bool)
    (hfresh : ∀ r ∈ db, r.payload ≠ t) :
    (insertMedia db ⟨t, m, k, some (protectionInt p)⟩ =
        some (db ++ [⟨t, m, k, some (protectionInt p)⟩]) ∧
      resolveMedia (db ++ [⟨t, m, k, some (protectionInt p)⟩]) t = some (m, k, p)) ∧
    (∀ s : List Char, (∀ r ∈ db, r.payload ≠ s) → resolveMedia db s = none) := by
  have hnone : ∀ s : List Char, (∀ r ∈ db, r.payload ≠ s) →
      db.find? (fun r => r.payload == s) = none := by
    intro s hs
    apply List.find?_eq_none.mpr
    intro r hr
    simpa using hs r hr
  refine ⟨⟨?_, ?_⟩, ?_⟩
  · have hany : db.any (fun q => q.payload == t) = false := by
      simp only [List.any_eq_false, beq_iff_eq]
      intro q hq
      exact hfresh q hq
    simp [insertMedia, hany]
  · rw [resolveMedia, find?_append_of_none (hnone t hfresh)]
    simp [List.find?, protectFlag_protectionInt]
  · intro s hs
    rw [resolveMedia, hnone s hs]

/-- C1 witness: concrete round trip on an empty registry. -/
theorem registry_roundtrip_and_notfound_witness :
    (∀ r ∈ ([] : List MediaRow), r.payload ≠ [ 'a' ]) ∧
    ((insertMedia [] ⟨[ 'a' ], "f", "video", some (protectionInt true)⟩ =
        some ([] ++ [⟨[ 'a' ], "f", "video", some (protectionInt true)⟩]) ∧
      resolveMedia ([] ++ [⟨[ 'a' ], "f", "video", some (protectionInt true)⟩]) [ 'a' ] =
        some ("f", "video", true)) ∧
    (∀ s : List Char, (∀ r ∈ ([] : List MediaRow), r.payload ≠ s) →
      resolveMedia [] s = none)) :=
  ⟨by simp, registry_roundtrip_and_notfound [] [ 'a' ] "f" "video" true (by simp)⟩

/-- C10: redeeming a token whose stored `content_protection` is NULL sends the media with
protection enabled, and only an explicit stored 0 yields an unprotected send. -/
theorem null_protection_defaults_true (db : List MediaRow) (p : List Char)
    (fid mt : String) (cp : Option Int) :
    resolveMedia (⟨p, fid, mt, cp⟩ :: db) p = some (fid, mt, protectFlag cp) ∧
    protectFlag none = true ∧
    (∀ v : Int, protectFlag (some v) = false ↔ v = 0) := by
  refine ⟨?_, rfl, ?_⟩
  · simp [resolveMedia, List.find?]
  · intro v
    simp [protectFlag]

/-- C2 counterexample: at a concrete UUID draw the generated token has length 11, not
the claimed fixed length 12 (the 12-character UUID prefix contains one dash, which the
replace removes); and with the registry already containing that token, issuing fails
with the primary-key error instead of regenerating. -/
theorem token_generation_counterexample :
    (genPayload (List.replicate 32 'a')).length ≠ 12 ∧
    issueToken (List.replicate 32 'a') "f" "video" true
      [⟨genPayload (List.replicate 32 'a'), "f", "video", some 1⟩] = none := by
  constructor
  · decide
  · decide

/-- C2 amended: every generated token is an opaque string of fixed length 11 (the first
12 characters of the UUID text contain exactly one dash, which is removed); the issue
operation does not regenerate on collision: issuing a token already present in the
registry fails with the primary-key error, while issuing a fresh token inserts it and
keeps the stored tokens pairwise distinct. -/
theorem token_generation_amended (h : List Char) (fid mt : String) (p : Bool)
    (db : List MediaRow) (hlen : h.length = 32) (hhex : ∀ c ∈ h, c ≠ '-') :
    (genPayload h).length = 11 ∧
    ((∃ r ∈ db, r.payload = genPayload h) → issueToken h fid mt p db = none) ∧
    ((∀ r ∈ db, r.payload ≠ genPayload h) →
      issueToken h fid mt p db =
        some (db ++ [⟨genPayload h, fid, mt, some (protectionInt p)⟩]) ∧
      ((db.map MediaRow.payload).Nodup →
        ((db ++ [(⟨genPayload h, fid, mt, some (protectionInt p)⟩ : MediaRow)]).map
          MediaRow.payload).Nodup)) := by
  refine ⟨genPayload_length h hlen hhex, ?_, ?_⟩
  · rintro ⟨r, hr, hpr⟩
    have hany : db.any (fun q => q.payload == genPayload h) = true := by
      simp only [List.any_eq_true, beq_iff_eq]
      exact ⟨r, hr, hpr⟩
    simp [issueToken, insertMedia, hany]
  · intro hfresh
    have hany : db.any (fun q => q.payload == genPayload h) = false := by
      simp only [List.any_eq_false, beq_iff_eq]
      intro q hq
      exact hfresh q hq
    refine ⟨by simp [issueToken, insertMedia, hany], ?_⟩
    intro hnd
    rw [List.map_append, List.nodup_append]
    refine ⟨hnd, by simp, ?_⟩
    intro a ha hb
    simp only [List.map_cons, List.map_nil, List.mem_cons, List.not_mem_nil,
      or_false] at hb
    obtain ⟨q, hq, hqa⟩ := List.mem_map.mp ha
    exact hfresh q hq (hqa.trans hb)

/-- C2 amended witness: a concrete fresh issuance into a one-row registry. -/
theorem token_generation_amended_witness :
    ((List.replicate 32 'b').length = 32 ∧
      (∀ c ∈ List.replicate 32 'b', c ≠ '-') ∧
      (∀ r ∈ [(⟨[ 'x' ], "g", "photo", some 0⟩ : MediaRow)],
        r.payload ≠ genPayload (List.replicate 32 'b'))) ∧
    ((genPayload (List.replicate 32 'b')).length = 11 ∧
      issueToken (List.replicate 32 'b') "f" "video" true
          [⟨[ 'x' ], "g", "photo", some 0⟩] =
        some ([⟨[ 'x' ], "g", "photo", some 0⟩] ++
          [⟨genPayload (List.replicate 32 'b'), "f", "video",
            some (protectionInt true)⟩])) :=
  ⟨⟨by decide, by decide, by decide⟩, by
    have := token_generation_amended (List.replicate 32 'b') "f" "video" true
      [⟨[ 'x' ], "g", "photo", some 0⟩] (by decide) (by decide)
    exact ⟨this.1, (this.2.2 (by decide)).1⟩⟩

theorem handleCallback_expired (h : List Char) (uid : Nat) (action : CbAction)
    (pending : PendingMap) (db : List MediaRow)
    (hmiss : findUpload uid pending = none) :
    handleCallback h uid action pending db = (pending, db, .expired) := by
  simp [handleCallback, hmiss]

theorem findUpload_removeUpload (uid : Nat) (m : PendingMap) :
    findUpload uid (removeUpload uid m) = none := by
  induction m with
  | nil => rfl
  | cons e rest ih =>
    simp only [removeUpload, List.filter_cons] at ih ⊢
    by_cases he : e.1 = uid
    · simpa [he] using ih
    · simpa [he, findUpload] using ih

/-- C5: with no live session, every callback event is rejected as expired with no state
change; finalize consumes the session on both its paths, so a second finalize for the
same owner is rejected as expired rather than crashing or processing twice. -/
theorem session_expiry_correct (h h' : List Char) (uid : Nat) (action : CbAction)
    (pending : PendingMap) (db : List MediaRow) :
    (findUpload uid pending = none →
      handleCallback h uid action pending db = (pending, db, .expired)) ∧
    (∀ s, findUpload uid pending = some s →
      (∀ r ∈ db, r.payload ≠ genPayload h) →
      findUpload uid (handleCallback h uid .processNow pending db).1 = none ∧
      handleCallback h' uid .processNow (handleCallback h uid .processNow pending db).1
          (handleCallback h uid .processNow pending db).2.1 =
        ((handleCallback h uid .processNow pending db).1,
         (handleCallback h uid .processNow pending db).2.1, .expired)) := by
  constructor
  · intro hmiss
    exact handleCallback_expired h uid action pending db hmiss
  · intro s hfind hfresh
    have hany : db.any (fun q => q.payload == genPayload h) = false := by
      simp only [List.any_eq_false, beq_iff_eq]
      intro q hq
      exact hfresh q hq
    have hres : (handleCallback h uid .processNow pending db).1 =
        removeUpload uid pending := by
      by_cases hnp : needsProcessing s = true
      · have hp : processMedia h uid pending db = some (pending,
            db ++ [⟨genPayload h, s.file_id, s.media_type,
              some (protectionInt s.content_protection)⟩]) := by
          simp [processMedia, hfind, insertMedia, hany, hnp]
        simp [handleCallback, hfind, hp]
      · have hp : processMedia h uid pending db = some (removeUpload uid pending,
            db ++ [⟨genPayload h, s.file_id, s.media_type,
              some (protectionInt s.content_protection)⟩]) := by
          simp [processMedia, hfind, insertMedia, hany, hnp]
        simp [handleCallback, hfind, hp, findUpload_removeUpload]
    have hgone : findUpload uid (handleCallback h uid .processNow pending db).1 =
        none := by
      rw [hres]
      exact findUpload_removeUpload uid pending
    exact ⟨hgone, handleCallback_expired h' uid .processNow _ _ hgone⟩

/-- C5 witness: concrete expired rejection on an empty store, and a concrete
finalize/finalize sequence where the second finalize is rejected as expired. -/
theorem session_expiry_witness :
    (findUpload 7 ([] : PendingMap) = none ∧
      handleCallback (List.replicate 32 'c') 7 .toggleProtection [] [] =
        ([], [], .expired)) ∧
    (findUpload 7 [(7, defaultUpload "f" "video")] = some (defaultUpload "f" "video") ∧
      findUpload 7 (handleCallback (List.replicate 32 'c') 7 .processNow
        [(7, defaultUpload "f" "video")] []).1 = none ∧
      handleCallback (List.replicate 32 'd') 7 .processNow
          (handleCallback (List.replicate 32 'c') 7 .processNow
            [(7, defaultUpload "f" "video")] []).1
          (handleCallback (List.replicate 32 'c') 7 .processNow
            [(7, defaultUpload "f" "video")] []).2.1 =
        ((handleCallback (List.replicate 32 'c') 7 .processNow
            [(7, defaultUpload "f" "video")] []).1,
         (handleCallback (List.replicate 32 'c') 7 .processNow
            [(7, defaultUpload "f" "video")] []).2.1, .expired)) :=
  ⟨⟨rfl, (session_expiry_correct (List.replicate 32 'c') (List.replicate 32 'c') 7
      .toggleProtection [] []).1 rfl⟩,
   ⟨rfl, (session_expiry_correct (List.replicate 32 'c') (List.replicate 32 'd') 7
      .toggleProtection [(7, defaultUpload "f" "video")] []).2
      (defaultUpload "f" "video") rfl (by simp)⟩⟩

theorem workerLoop_fst (l : List Nat) (ok : Nat → Bool) : (workerLoop l ok).1 = l := by
  induction l with
  | nil => rfl
  | cons i rest ih => simp [workerLoop, ih]

theorem workerLoop_snd (l : List Nat) (ok : Nat → Bool) :
    (workerLoop l ok).2 = l.all ok := by
  induction l with
  | nil => rfl
  | cons i rest ih => simp [workerLoop, ih, List.all_cons]

theorem removeFiles_self (l : List Nat) : removeFiles l l = [] := by
  induction l with
  | nil => rfl
  | cons a t ih =>
    simp only [removeFiles, List.foldl_cons, List.erase_cons_head]
    simpa [removeFiles] using ih

/-- C4 counterexample: in a two-worker run where worker 0 fails, the call returns
failure but both workers still run to completion; the remaining worker is not
cancelled or aborted (the code never cancels a future, and the executor context
exit waits for running workers). -/
theorem worker_execution_counterexample :
    (downloadParallel [] 2 (fun i => i != 0)).success = false ∧
    (fun i : Nat => i != 0) 0 = false ∧
    (downloadParallel [] 2 (fun i => i != 0)).executed = [0, 1] := by
  refine ⟨by decide, by decide, by decide⟩

/-- C4 amended: when at least one worker fails, the call fails, the remaining workers
run to completion rather than being cancelled, no merge is performed, the destination
file is not produced by the invocation, and no segment file remains on disk after the
call returns. -/
theorem parallel_failure_cleanup (file : List Nat) (num : Nat) (ok : Nat → Bool)
    (hfail : ∃ i, i < num ∧ ok i = false) :
    (downloadParallel file num ok).success = false ∧
    (downloadParallel file num ok).destination = none ∧
    (downloadParallel file num ok).partsOnDisk = [] ∧
    (downloadParallel file num ok).executed = List.range num := by
  obtain ⟨i, hi, hoki⟩ := hfail
  have hall : (List.range num).all ok = false :=
    List.all_eq_false.mpr ⟨i, List.mem_range.mpr hi, by simp [hoki]⟩
  have h2 : (workerLoop (List.range num) ok).2 = false := by
    rw [workerLoop_snd, hall]
  simp [downloadParallel, h2, removeFiles_self, workerLoop_fst]

/-- C4 witness: a concrete three-worker run with a failing middle worker. -/
theorem parallel_failure_cleanup_witness :
    (∃ i, i < 3 ∧ (fun j : Nat => j != 1) i = false) ∧
    ((downloadParallel [5, 6, 7] 3 (fun j => j != 1)).success = false ∧
      (downloadParallel [5, 6, 7] 3 (fun j => j != 1)).destination = none ∧
      (downloadParallel [5, 6, 7] 3 (fun j => j != 1)).partsOnDisk = [] ∧
      (downloadParallel [5, 6, 7] 3 (fun j => j != 1)).executed = List.range 3) :=
  ⟨⟨1, by decide, by decide⟩,
    parallel_failure_cleanup [5, 6, 7] 3 (fun j => j != 1) ⟨1, by decide, by decide⟩⟩

theorem partSize_mul_le (S N : Nat) : N * partSize S N ≤ S := by
  rw [partSize, Nat.mul_comm]
  exact Nat.div_mul_le_self S N

theorem startByte_toNat (S N i : Nat) :
    (startByte S N i).toNat = i * partSize S N := by
  rw [startByte, ← Nat.cast_mul, Int.toNat_natCast]

theorem segment_eq_of_lt (file : List Nat) (S N i : Nat) (hi : i < N - 1) :
    segment file S N i = (file.drop (i * partSize S N)).take (partSize S N) := by
  rw [segment, endByte, if_pos hi, startByte_toNat]
  congr 1
  have hY : startByte S N i + (partSize S N : Int) - 1 - startByte S N i + 1 =
      (partSize S N : Int) := by ring
  rw [hY, Int.toNat_natCast]

theorem segment_last (file : List Nat) (S N : Nat) :
    segment file S N (N - 1) =
      (file.drop ((N - 1) * partSize S N)).take (S - (N - 1) * partSize S N) := by
  have hple : (N - 1) * partSize S N ≤ S :=
    le_trans (Nat.mul_le_mul_right _ (Nat.sub_le N 1)) (partSize_mul_le S N)
  rw [segment, endByte, if_neg (lt_irrefl _), startByte_toNat]
  congr 1
  rw [startByte]
  omega

theorem flatten_segments_take (file : List Nat) (S N : Nat) :
    ∀ k, k ≤ N - 1 →
      ((List.range k).map (segment file S N)).flatten =
        file.take (k * partSize S N) := by
  intro k
  induction k with
  | zero => intro _; simp
  | succ k ih =>
    intro hk
    rw [List.range_succ, List.map_append, List.flatten_append,
      ih (Nat.le_of_succ_le hk)]
    simp only [List.map_cons, List.map_nil, List.flatten_cons, List.flatten_nil,
      List.append_nil]
    rw [segment_eq_of_lt file S N k hk, ← List.take_add]
    congr 1
    ring

theorem mergeParts_eq (file : List Nat) (S N : Nat) (hN : 1 ≤ N)
    (hlen : file.length = S) : mergeParts file S N = file := by
  have hple : (N - 1) * partSize S N ≤ S :=
    le_trans (Nat.mul_le_mul_right _ (Nat.sub_le N 1)) (partSize_mul_le S N)
  have hrange : List.range N = List.range (N - 1) ++ [N - 1] := by
    conv_lhs => rw [show N = (N - 1) + 1 by omega]
    rw [List.range_succ]
  rw [mergeParts, hrange, List.map_append, List.flatten_append,
    flatten_segments_take file S N (N - 1) le_rfl]
  simp only [List.map_cons, List.map_nil, List.flatten_cons, List.flatten_nil,
    List.append_nil]
  rw [segment_last file S N]
  have hdrop : (file.drop ((N - 1) * partSize S N)).take
      (S - (N - 1) * partSize S N) = file.drop ((N - 1) * partSize S N) := by
    apply List.take_of_length_le
    rw [List.length_drop, hlen]
  rw [hdrop, List.take_append_drop]

/-- C3: for every file size `S ≥ 1` and worker count `N ≥ 1`, the split computed by
`download_file_parallel` consists of `N` ranges where the first `N - 1` have equal size
`S / N` (floor), the ranges are contiguous starting at byte 0 and ending at byte
`S - 1` (so their union is exactly `[0, S-1]` and the remainder goes to the last
worker), distinct ranges never share a byte, every byte of `[0, S-1]` lies in some
range, and concatenating the segments in range order reproduces the source file
byte-for-byte. -/
theorem parallel_split_correct (S N : Nat) (file : List Nat)
    (hS : 1 ≤ S) (hN : 1 ≤ N) (hlen : file.length = S) :
    (∀ i, i < N - 1 →
      endByte S N i - startByte S N i + 1 = (partSize S N : Int)) ∧
    startByte S N 0 = 0 ∧
    (∀ i, i + 1 < N → startByte S N (i + 1) = endByte S N i + 1) ∧
    endByte S N (N - 1) = (S : Int) - 1 ∧
    (∀ i j, i < j → j < N → ∀ b : Int,
      startByte S N i ≤ b → b ≤ endByte S N i →
      ¬(startByte S N j ≤ b ∧ b ≤ endByte S N j)) ∧
    (∀ b : Int, 0 ≤ b → b ≤ (S : Int) - 1 →
      ∃ i, i < N ∧ startByte S N i ≤ b ∧ b ≤ endByte S N i) ∧
    mergeParts file S N = file := by
  refine ⟨?_, ?_, ?_, ?_, ?_, ?_, mergeParts_eq file S N hN hlen⟩
  · intro i hi
    rw [endByte, if_pos hi]
    ring
  · simp [startByte]
  · intro i hi
    rw [endByte, if_pos (by omega), startByte, startByte]
    push_cast
    ring
  · rw [endByte, if_neg (lt_irrefl _)]
  · intro i j hij hj b hbi1 hbi2 hc
    obtain ⟨hbj1, _⟩ := hc
    have hiN : i < N - 1 := by omega
    rw [endByte, if_pos hiN, startByte] at hbi2
    rw [startByte] at hbj1
    have hle : ((i : Int) + 1) * (partSize S N : Int) ≤
        (j : Int) * (partSize S N : Int) := by
      apply mul_le_mul_of_nonneg_right _ (Int.natCast_nonneg _)
      exact_mod_cast Nat.succ_le_of_lt hij
    have hle' : (i : Int) * (partSize S N : Int) + (partSize S N : Int) ≤
        (j : Int) * (partSize S N : Int) := by
      calc (i : Int) * (partSize S N : Int) + (partSize S N : Int)
          = ((i : Int) + 1) * (partSize S N : Int) := by ring
        _ ≤ (j : Int) * (partSize S N : Int) := hle
    linarith
  · intro b hb0 hbS
    by_cases hps : partSize S N = 0
    · refine ⟨N - 1, by omega, ?_, ?_⟩
      · rw [startByte, hps]
        simpa using hb0
      · rw [endByte, if_neg (lt_irrefl _)]
        exact hbS
    · have hpspos : 0 < partSize S N := Nat.pos_of_ne_zero hps
      have hbnat : (b.toNat : Int) = b := Int.toNat_of_nonneg hb0
      have h1 : b.toNat / partSize S N * partSize S N ≤ b.toNat :=
        Nat.div_mul_le_self b.toNat (partSize S N)
      have h2 : b.toNat < (b.toNat / partSize S N + 1) * partSize S N := by
        calc b.toNat
            = partSize S N * (b.toNat / partSize S N) + b.toNat % partSize S N :=
              (Nat.div_add_mod b.toNat (partSize S N)).symm
          _ < partSize S N * (b.toNat / partSize S N) + partSize S N :=
              Nat.add_lt_add_left (Nat.mod_lt b.toNat hpspos) _
          _ = (b.toNat / partSize S N + 1) * partSize S N := by ring
      by_cases hq : b.toNat / partSize S N < N - 1
      · refine ⟨b.toNat / partSize S N, by omega, ?_, ?_⟩
        · rw [startByte, ← hbnat]
          exact_mod_cast h1
        · rw [endByte, if_pos hq, startByte]
          have h2' : b < (((b.toNat / partSize S N : Nat) : Int) + 1) *
              (partSize S N : Int) := by
            rw [← hbnat]
            exact_mod_cast h2
          linarith [h2']
      · refine ⟨N - 1, by omega, ?_, ?_⟩
        · rw [startByte]
          have hmle : (N - 1) * partSize S N ≤ b.toNat / partSize S N * partSize S N :=
            Nat.mul_le_mul_right _ (by omega)
          rw [← hbnat]
          exact_mod_cast le_trans hmle h1
        · rw [endByte, if_neg (lt_irrefl _)]
          exact hbS

/-- C3 witness: a concrete 13-byte file split over 8 workers (`13 = 8·1 + 5`). -/
theorem parallel_split_correct_witness :
    (1 ≤ 13 ∧ 1 ≤ 8 ∧ (List.range 13).length = 13) ∧
    ((∀ i, i < 8 - 1 →
        endByte 13 8 i - startByte 13 8 i + 1 = (partSize 13 8 : Int)) ∧
      startByte 13 8 0 = 0 ∧
      (∀ i, i + 1 < 8 → startByte 13 8 (i + 1) = endByte 13 8 i + 1) ∧
      endByte 13 8 (8 - 1) = (13 : Int) - 1 ∧
      (∀ i j, i < j → j < 8 → ∀ b : Int,
        startByte 13 8 i ≤ b → b ≤ endByte 13 8 i →
        ¬(startByte 13 8 j ≤ b ∧ b ≤ endByte 13 8 j)) ∧
      (∀ b : Int, 0 ≤ b → b ≤ (13 : Int) - 1 →
        ∃ i, i < 8 ∧ startByte 13 8 i ≤ b ∧ b ≤ endByte 13 8 i) ∧
      mergeParts (List.range 13) 13 8 = List.range 13) :=
  ⟨⟨by decide, by decide, by decide⟩,
    parallel_split_correct 13 8 (List.range 13) (by decide) (by decide) (by decide)⟩

theorem previewNumClips_eq_floor (L : Rat) (hL : 0 ≤ L) :
    previewNumClips L = (⌊L / 2⌋).toNat := by
  rw [previewNumClips, pyInt, if_pos (div_nonneg hL (by norm_num))]

/-- C6: when the source duration is at most the requested length the preview is the whole
source copied (not re-encoded); otherwise the stage draws `⌊L / 2⌋` start offsets, each in
`[0, D - 2]` whenever the uniform draws are, sorts them ascending, and the output is the
2-second clips at those starts concatenated in sorted order. -/
theorem preview_plan_correct (D L : Rat) (rand : Nat → Rat) (hL : 0 ≤ L)
    (hrand : ∀ i, 0 ≤ rand i ∧ rand i ≤ D - 2) :
    (D ≤ L → previewPlan D L rand = .copyFull) ∧
    (L < D →
      ∃ starts : List Rat,
        previewPlan D L rand = .clips (starts.map (fun t => (t, 2))) ∧
        starts.length = (⌊L / 2⌋).toNat ∧
        starts.Sorted (fun a b => a ≤ b) ∧
        ∀ t ∈ starts, 0 ≤ t ∧ t ≤ D - 2) := by
  constructor
  · intro hDL
    rw [previewPlan, if_pos hDL]
  · intro hLD
    refine ⟨List.insertionSort (fun a b => a ≤ b)
      ((List.range (previewNumClips L)).map rand), ?_, ?_, ?_, ?_⟩
    · rw [previewPlan, if_neg (not_le.mpr hLD)]
    · rw [(List.perm_insertionSort _ _).length_eq, List.length_map,
        List.length_range, previewNumClips_eq_floor L hL]
    · exact List.sorted_insertionSort _ _
    · intro t ht
      have hmem : t ∈ (List.range (previewNumClips L)).map rand :=
        (List.perm_insertionSort _ _).mem_iff.mp ht
      obtain ⟨i, _, rfl⟩ := List.mem_map.mp hmem
      exact hrand i

/-- C6 witness: `D = 20`, `L = 6` with the uniform draws pinned to 0. -/
theorem preview_plan_correct_witness :
    ((0 : Rat) ≤ 6 ∧
      (∀ i : Nat, 0 ≤ (fun _ : Nat => (0 : Rat)) i ∧
        (fun _ : Nat => (0 : Rat)) i ≤ 20 - 2)) ∧
    (((20 : Rat) ≤ 6 → previewPlan 20 6 (fun _ : Nat => (0 : Rat)) = .copyFull) ∧
      ((6 : Rat) < 20 →
        ∃ starts : List Rat,
          previewPlan 20 6 (fun _ : Nat => (0 : Rat)) =
            .clips (starts.map (fun t => (t, 2))) ∧
          starts.length = (⌊(6 : Rat) / 2⌋).toNat ∧
          starts.Sorted (fun a b => a ≤ b) ∧
          ∀ t ∈ starts, 0 ≤ t ∧ t ≤ 20 - 2)) :=
  ⟨⟨by norm_num, fun i => ⟨le_refl 0, by norm_num⟩⟩,
   preview_plan_correct 20 6 (fun _ : Nat => (0 : Rat)) (by norm_num)
     (fun i => ⟨le_refl 0, by norm_num⟩)⟩

theorem sorted_map_range (f : Nat → Rat) (n : Nat)
    (hf : ∀ i j, i < j → f i ≤ f j) :
    ((List.range n).map f).Sorted (fun a b => a ≤ b) :=
  List.Pairwise.map f (fun a b hab => hf a b hab) (List.sorted_lt_range n)

/-- C7: the collage timestamp selection follows exactly the source's branch order and
formulas — `D < 1` forces a single timestamp `0.5`; `1 ≤ D < N` reduces the count to
`⌊D⌋` with evenly spaced centers `D·(i+0.5)/⌊D⌋`; `D > 10` draws `N` timestamps in
`[5, D-5]`; otherwise `N` timestamps in `[0.1·D, D - 0.1·D]` — and the resulting
timestamp list is ascending. -/
theorem collage_timestamps_correct (D : Rat) (N : Nat) (rand : Nat → Rat)
    (hrand : ∀ i, 0 ≤ rand i ∧ rand i ≤ 1) :
    (D < 1 → collageTimes D N rand = (1, [1/2])) ∧
    (1 ≤ D → D < (N : Rat) →
      collageTimes D N rand =
        ((⌊D⌋).toNat, (List.range (⌊D⌋).toNat).map
          (fun i : Nat => D * ((i : Rat) + 1/2) / (((⌊D⌋).toNat : Nat) : Rat)))) ∧
    ((N : Rat) ≤ D → 10 < D →
      (collageTimes D N rand).1 = N ∧
      (collageTimes D N rand).2.length = N ∧
      ∀ t ∈ (collageTimes D N rand).2, 5 ≤ t ∧ t ≤ D - 5) ∧
    (1 ≤ D → (N : Rat) ≤ D → D ≤ 10 →
      (collageTimes D N rand).1 = N ∧
      (collageTimes D N rand).2.length = N ∧
      ∀ t ∈ (collageTimes D N rand).2,
        D * (1/10) ≤ t ∧ t ≤ D - D * (1/10)) ∧
    (collageTimes D N rand).2.Sorted (fun a b => a ≤ b) := by
  have hactual : 1 ≤ D → max 1 (pyInt D).toNat = (⌊D⌋).toNat := by
    intro h1
    have hfl : (1 : Int) ≤ ⌊D⌋ := by
      rwa [Int.le_floor, Int.cast_one]
    rw [pyInt, if_pos (le_trans zero_le_one h1)]
    exact max_eq_right (by omega)
  refine ⟨?_, ?_, ?_, ?_, ?_⟩
  · intro hd1
    rw [collageTimes, if_pos hd1]
  · intro h1 h2
    rw [collageTimes, if_neg (not_lt.mpr h1), if_pos h2, hactual h1]
  · intro hND h10
    have h1 : ¬D < 1 := not_lt.mpr (le_trans (by norm_num) (le_of_lt h10))
    rw [collageTimes, if_neg h1, if_neg (not_lt.mpr hND), if_pos h10]
    refine ⟨rfl, ?_, ?_⟩
    · rw [(List.perm_insertionSort _ _).length_eq, List.length_map,
        List.length_range]
    · intro t ht
      have hmem : t ∈ (List.range N).map (fun i => 5 + rand i * (D - 10)) :=
        (List.perm_insertionSort _ _).mem_iff.mp ht
      obtain ⟨i, _, rfl⟩ := List.mem_map.mp hmem
      obtain ⟨hr0, hr1⟩ := hrand i
      constructor
      · nlinarith
      · nlinarith
  · intro h1 hND h10
    rw [collageTimes, if_neg (not_lt.mpr h1), if_neg (not_lt.mpr hND),
      if_neg (not_lt.mpr h10)]
    refine ⟨rfl, ?_, ?_⟩
    · rw [(List.perm_insertionSort _ _).length_eq, List.length_map,
        List.length_range]
    · intro t ht
      have hmem : t ∈ (List.range N).map
          (fun i => D * (1/10) + rand i * (D - 2 * (D * (1/10)))) :=
        (List.perm_insertionSort _ _).mem_iff.mp ht
      obtain ⟨i, _, rfl⟩ := List.mem_map.mp hmem
      obtain ⟨hr0, hr1⟩ := hrand i
      constructor
      · nlinarith
      · nlinarith
  · rw [collageTimes]
    by_cases hd1 : D < 1
    · simp [hd1]
    · rw [if_neg hd1]
      by_cases hdN : D < (N : Rat)
      · rw [if_pos hdN]
        have hD0 : (0 : Rat) < D := lt_of_lt_of_le one_pos (not_lt.mp hd1)
        have ha1 : 1 ≤ max 1 (pyInt D).toNat := le_max_left 1 _
        have haQ : (0 : Rat) < ((max 1 (pyInt D).toNat : Nat) : Rat) := by
          exact_mod_cast lt_of_lt_of_le one_pos ha1
        apply sorted_map_range
        intro i j hij
        refine (div_le_div_iff_of_pos_right haQ).mpr ?_
        have : ((i : Rat) + 1/2) ≤ ((j : Rat) + 1/2) := by
          have : (i : Rat) ≤ (j : Rat) := by exact_mod_cast le_of_lt hij
          linarith
        nlinarith
      · rw [if_neg hdN]
        by_cases h10 : 10 < D
        · rw [if_pos h10]
          exact List.sorted_insertionSort _ _
        · rw [if_neg h10]
          exact List.sorted_insertionSort _ _

/-- C7 witness: `D = 30`, `N = 9` with the uniform draws pinned to 0 exercises the
`D > 10` branch; the hypotheses are discharged concretely. -/
theorem collage_timestamps_correct_witness :
    (∀ i : Nat, 0 ≤ (fun _ : Nat => (0 : Rat)) i ∧
      (fun _ : Nat => (0 : Rat)) i ≤ 1) ∧
    (((9 : Nat) : Rat) ≤ 30 ∧ (10 : Rat) < 30) ∧
    ((collageTimes 30 9 (fun _ : Nat => (0 : Rat))).1 = 9 ∧
      (collageTimes 30 9 (fun _ : Nat => (0 : Rat))).2.length = 9 ∧
      ∀ t ∈ (collageTimes 30 9 (fun _ : Nat => (0 : Rat))).2,
        5 ≤ t ∧ t ≤ 30 - 5) :=
  ⟨fun i => ⟨le_refl 0, by norm_num⟩, ⟨by norm_num, by norm_num⟩,
    (collage_timestamps_correct 30 9 (fun _ : Nat => (0 : Rat))
      (fun i => ⟨le_refl 0, by norm_num⟩)).2.2.1 (by norm_num) (by norm_num)⟩

/-- C8: when fewer frames are successfully extracted than the (possibly reduced)
requested count, the collage stage aborts with the skip warning and produces no grid;
exactly when the extracted count reaches the requested count a grid is composed from
the fixed table (4 to 2x2, 6 to 3x2, 9 to 3x3, 12 to 4x3, default 2x2). -/
theorem collage_incomplete_abort (N : Nat) (times : List Rat) (ok : Nat → Bool)
    (hlen : times.length = N) :
    (((List.range N).filter ok).length < N →
      collageCompose N times ok = .skipped ((List.range N).filter ok).length) ∧
    (((List.range N).filter ok).length = N →
      collageCompose N times ok =
        CollageOutput.grid (gridFor N).1 (gridFor N).2) ∧
    gridFor 4 = (2, 2) ∧ gridFor 6 = (3, 2) ∧ gridFor 9 = (3, 3) ∧
    gridFor 12 = (4, 3) ∧
    (∀ n, n ≠ 4 → n ≠ 6 → n ≠ 9 → n ≠ 12 → gridFor n = (2, 2)) := by
  refine ⟨?_, ?_, by decide, by decide, by decide, by decide, ?_⟩
  · intro hlt
    rw [collageCompose, hlen, if_neg (not_le.mpr hlt)]
  · intro heq
    rw [collageCompose, hlen, if_pos (le_of_eq heq.symm)]
  · intro n h4 h6 h9 h12
    simp [gridFor, h4, h6, h9, h12]

/-- C8 witness: 9 requested frames but only the 7 extractions at indices 2..8 succeed,
so the stage aborts with the skip warning; with all 9 succeeding a 3x3 grid is
composed. -/
theorem collage_incomplete_abort_witness :
    (List.replicate 9 (0 : Rat)).length = 9 ∧
    (((List.range 9).filter (fun i => decide (2 ≤ i))).length < 9 →
      collageCompose 9 (List.replicate 9 (0 : Rat)) (fun i => decide (2 ≤ i)) =
        .skipped ((List.range 9).filter (fun i => decide (2 ≤ i))).length) ∧
    collageCompose 9 (List.replicate 9 (0 : Rat)) (fun i => decide (2 ≤ i)) =
      .skipped 7 :=
  ⟨rfl,
   (collage_incomplete_abort 9 (List.replicate 9 (0 : Rat))
      (fun i => decide (2 ≤ i)) rfl).1,
   by rfl⟩

/-- C9: the watermark compositing computes
`output = opacity * drawn_overlay + (1 - opacity) * original` per pixel, so at opacity 1
the output frame equals the drawn overlay pixel-for-pixel and at opacity 0 it equals the
original frame exactly. -/
theorem watermark_blend_correct (drawText : (Nat → Rat) → Nat → Rat) (alpha : Rat)
    (frame : Nat → Rat) :
    (∀ p, watermarkFrame drawText alpha frame p =
      alpha * drawText frame p + (1 - alpha) * frame p) ∧
    watermarkFrame drawText 1 frame = drawText frame ∧
    watermarkFrame drawText 0 frame = frame := by
  refine ⟨fun p => ?_, funext fun p => ?_, funext fun p => ?_⟩
  · rw [watermarkFrame, addWeighted]
    ring
  · rw [watermarkFrame, addWeighted]
    ring
  · rw [watermarkFrame, addWeighted]
    ring

end DeepLinkBot
